import Mathlib

/-!
Verification development for the Cloud Foundry stack-usage exporter (stack.py).

Python dicts are modelled as insertion-ordered association lists with String
keys and Int values, matching Python dict semantics: assignment to an existing
key keeps its position and replaces the value, assignment to a new key appends.
Fallible HTTP calls are modelled with Except / Option; the refresh loop is a
step function on an explicit exporter state.
-/

set_option maxRecDepth 8000

/-- A Python dict with String keys and Int values: an insertion-ordered
association list. -/
abbrev Dict := List (String × Int)

/-- Python dict lookup: the value at the first matching key, if any. -/
def Dict.lookup : Dict → String → Option Int
  | [], _ => none
  | p :: rest, s => if p.1 = s then some p.2 else Dict.lookup rest s

/-- Python dict assignment d[k] = v: an existing key keeps its position and
gets the new value, a new key is appended at the end. -/
def Dict.insert : Dict → String → Int → Dict
  | [], k, v => [(k, v)]
  | p :: rest, k, v => if p.1 = k then (k, v) :: rest else p :: Dict.insert rest k v

/-- The increment stack_counts[stack] = stack_counts.get(stack, 0) + 1
(stack.py line 194). -/
def Dict.bump (d : Dict) (k : String) : Dict :=
  Dict.insert d k ((Dict.lookup d k).getD 0 + 1)

/-- The key sequence of a dict. -/
def Dict.keys (d : Dict) : List String := d.map Prod.fst

/-- A genuine dict state: no key occurs twice.  Every state reachable from the
empty dict through Dict.insert has this property. -/
def Dict.NodupKeys (d : Dict) : Prop := (Dict.keys d).Nodup

/-- Python str.lower, as a character-wise map. -/
def lowerStr (s : String) : String :=
  String.mk (s.data.map Char.toLower)

/-- str2bool from stack.py line 39: true exactly on the listed lowered strings. -/
def str2bool (val : String) : Bool :=
  ["yes", "true", "t", "1"].contains (lowerStr val)

/-- The verify= argument passed to requests.get in api_call (stack.py line 133):
the SKIP_SSL_VALIDATION flag is passed through unchanged. -/
def api_call_verify_arg (skip_ssl_validation : Bool) : Bool :=
  skip_ssl_validation

/-- The verify= argument passed to requests.post in get_token (stack.py
line 119): the SKIP_SSL_VALIDATION flag is passed through unchanged. -/
def get_token_verify_arg (skip_ssl_validation : Bool) : Bool :=
  skip_ssl_validation

/-- The field lifecycle.data of an application record, with an optional stack
name (the nested field may be absent). -/
structure LifecycleData where
  stack : Option String
deriving DecidableEq, Repr

/-- The lifecycle field of an application record. -/
structure Lifecycle where
  data : Option LifecycleData
deriving DecidableEq, Repr

/-- One application record, reduced to the path the exporter reads:
app.get("lifecycle", ...).get("data", ...).get("stack") (stack.py line 191). -/
structure App where
  lifecycle : Option Lifecycle
deriving DecidableEq, Repr

/-- The chained .get calls of stack.py line 191: missing intermediate objects
yield no stack name. -/
def App.getStack (a : App) : Option String :=
  match a.lifecycle with
  | none => none
  | some l =>
    match l.data with
    | none => none
    | some d => d.stack

/-- An applications-endpoint page body; response.get("resources", []) defaults
to the empty list when the field is absent (stack.py line 190). -/
structure Page where
  resources : Option (List App)
deriving DecidableEq, Repr

/-- The body of the per-record loop of stack.py lines 190-196: skip a record
with a falsy (absent or empty) stack, count it when invalid stacks are
included or the stack is in the valid list, discard it otherwise. -/
def processApp (inc : Bool) (valid : List String) (d : Dict) (a : App) : Dict :=
  match App.getStack a with
  | none => d
  | some s =>
    if s = "" then d
    else if inc || valid.contains s then Dict.bump d s
    else d

/-- The aggregation of stack.py lines 189-196: fold every record of every page
into a fresh dict of per-stack counts. -/
def aggregate (inc : Bool) (valid : List String) (responses : List Page) : Dict :=
  responses.foldl
    (fun d p => (p.resources.getD []).foldl (processApp inc valid) d) []

/-- All application records of a page list, in page order. -/
def allApps (responses : List Page) : List App :=
  (responses.map (fun p => p.resources.getD [])).flatten

/-- An application record whose nested lifecycle.data.stack field is s. -/
def mkApp (s : String) : App :=
  { lifecycle := some { data := some { stack := some s } } }

/-- Page 1 of the aggregation scenario of the spec. -/
def scenarioPage1 : Page :=
  { resources := some [mkApp "cflinuxfs4", mkApp "cflinuxfs4", mkApp "bogus-stack"] }

/-- Page 2 of the aggregation scenario of the spec. -/
def scenarioPage2 : Page :=
  { resources := some [mkApp "windows2016", mkApp "cflinuxfs4"] }

/-- The pagination object of an applications-endpoint body
(stack.py line 178 reads pagination.total_pages). -/
structure Pagination where
  total_pages : Nat
deriving DecidableEq, Repr

/-- The applications-endpoint body as the discovery step uses it. -/
structure AppsResponse where
  pagination : Pagination
deriving DecidableEq, Repr

/-- The result of one get_token call made from the 401/403 branch of the
discovery retry loop: either a new token, or response.raise_for_status raising
on a non-2xx token response (stack.py line 122). -/
inductive TokenResult where
  | success (tok : String)
  | failure
deriving DecidableEq, Repr

/-- One attempt of api_call(apps_endpoint) inside the discovery retry loop,
classified the way stack.py lines 151-174 branches: a parsed body, a transport
error carrying no response, an HTTP status error (with the outcome of the
get_token call that runs when the status is 401 or 403), or any other
exception. -/
inductive AttemptOutcome where
  | ok (resp : AppsResponse)
  | transportErr
  | httpErr (status : Nat) (tok : TokenResult)
  | otherErr
deriving DecidableEq, Repr

/-- How a refresh cycle aborts before the fan-out: the retry budget of 5 is
exhausted (stack.py lines 148-150), the 401/403 re-login itself raised
(stack.py line 161), or the modelled attempt trace ran out. -/
inductive CycleError where
  | retryExhausted
  | tokenException
  | inputExhausted
deriving DecidableEq, Repr

/-- The page-discovery retry loop of stack.py lines 147-174: with 5 recorded
failures the loop raises; otherwise a successful call returns its body; a
transport error, a non-auth HTTP error, or an auth error whose re-login
succeeded sleeps and retries with the counter bumped; an auth error whose
re-login raised escapes the loop at once. -/
def discover (attempts : List AttemptOutcome) (retries : Nat) :
    Except CycleError AppsResponse :=
  if 5 ≤ retries then Except.error CycleError.retryExhausted
  else
    match attempts with
    | [] => Except.error CycleError.inputExhausted
    | AttemptOutcome.ok resp :: _ => Except.ok resp
    | AttemptOutcome.transportErr :: rest => discover rest (retries + 1)
    | AttemptOutcome.httpErr status tok :: rest =>
      if status = 403 ∨ status = 401 then
        match tok with
        | TokenResult.success _ => discover rest (retries + 1)
        | TokenResult.failure => Except.error CycleError.tokenException
      else discover rest (retries + 1)
    | AttemptOutcome.otherErr :: rest => discover rest (retries + 1)

/-- An attempt the retry loop absorbs by sleeping and bumping the counter:
everything except a success and except a 401/403 whose re-login raised. -/
def retriable : AttemptOutcome → Bool
  | AttemptOutcome.ok _ => false
  | AttemptOutcome.transportErr => true
  | AttemptOutcome.httpErr status tok =>
    if status = 403 ∨ status = 401 then
      match tok with
      | TokenResult.success _ => true
      | TokenResult.failure => false
    else true
  | AttemptOutcome.otherErr => true

/-- The concurrent fan-out of stack.py lines 181-187: one fetch per page
number 1..total_pages; a raise in any of them aborts the cycle. -/
def fetchPages (fetch : Nat → Except Unit Page) (total_pages : Nat) :
    Except Unit (List Page) :=
  (List.range' 1 total_pages).mapM fetch

/-- The environment one refresh cycle runs against: the successive outcomes of
the discovery attempts, and the per-page outcome of the fan-out fetches. -/
structure CycleInput where
  attempts : List AttemptOutcome
  pageFetch : Nat → Except Unit Page

/-- The startup configuration the refresh loop reads. -/
structure Config where
  include_invalid_stacks : Bool
  valid_stacks : List String
  scrape_interval : Nat

/-- What one refresh cycle computes: the fresh aggregate when discovery and
every page fetch succeed, nothing when any exception aborts the cycle. -/
def cycleResult (cfg : Config) (inp : CycleInput) : Option Dict :=
  match discover inp.attempts 0 with
  | Except.error _ => none
  | Except.ok resp =>
    match fetchPages inp.pageFetch resp.pagination.total_pages with
    | Except.error _ => none
    | Except.ok pages =>
      some (aggregate cfg.include_invalid_stacks cfg.valid_stacks pages)

/-- The mutable state the exporter shares between the loop and the endpoint:
the stack_cache cell and the label children of the cf_stack_count gauge. -/
structure ExporterState where
  stack_cache : Dict
  gauges : Dict
deriving Repr

/-- The state at startup: empty cache (stack.py line 68) and a gauge with no
label children yet (stack.py line 65). -/
def initState : ExporterState :=
  { stack_cache := [], gauges := [] }

/-- One full pass of the outer loop of generate_stack_metrics (stack.py lines
140-208): on success the freshly built aggregate replaces stack_cache under
the lock; on any exception the state is left untouched.  Both branches end by
sleeping the full SCRAPE_INTERVAL, returned as the second component. -/
def runCycle (cfg : Config) (st : ExporterState) (inp : CycleInput) :
    ExporterState × Nat :=
  match cycleResult cfg inp with
  | none => (st, cfg.scrape_interval)
  | some d => ({ st with stack_cache := d }, cfg.scrape_interval)

/-- The gauge updates of stack.py lines 217-218: one set per cache entry, in
cache order. -/
def setGauges (g : Dict) (cache : Dict) : Dict :=
  cache.foldl (fun acc p => Dict.insert acc p.1 p.2) g

/-- One exposition line of the cf_stack_count gauge for a label and value. -/
def renderLine (k : String) (v : Int) : String :=
  "cf_stack_count\x7bstack=\"" ++ k ++ "\"\x7d " ++ toString v

/-- generate_latest over the registry holding the single cf_stack_count gauge:
help and type headers, then one line per label child in creation order. -/
def generate_latest (g : Dict) : List String :=
  "# HELP cf_stack_count Total number of apps using each stack" ::
    "# TYPE cf_stack_count gauge" ::
      g.map (fun p => renderLine p.1 p.2)

/-- The /metrics handler (stack.py lines 210-220): copy the cache under the
lock, set one gauge per copied entry, render every registered gauge.  The
function is total: no failure of the refresh loop reaches it. -/
def metrics (st : ExporterState) : ExporterState × List String :=
  let local_cache := st.stack_cache
  let g := setGauges st.gauges local_cache
  ({ st with gauges := g }, generate_latest g)

/-- The whole-value replacement of the Snapshot cell performed under the lock
(stack.py lines 199-200). -/
def publish (st : ExporterState) (d : Dict) : ExporterState :=
  { st with stack_cache := d }

/-- An observable step of the running process: one refresh cycle, or one
scrape of the /metrics endpoint. -/
inductive Event where
  | cycle (inp : CycleInput)
  | scrape

/-- The state transition of one event. -/
def step (cfg : Config) (st : ExporterState) (e : Event) : ExporterState :=
  match e with
  | Event.cycle inp => (runCycle cfg st inp).1
  | Event.scrape => (metrics st).1

/-- The exporter state after a sequence of events, starting from startup. -/
def runEvents (cfg : Config) (events : List Event) : ExporterState :=
  events.foldl (step cfg) initState

/-- What one event does to the published snapshot: a completed cycle replaces
it, everything else leaves it. -/
def publishStep (cfg : Config) (acc : Dict) (e : Event) : Dict :=
  match e with
  | Event.cycle inp => (cycleResult cfg inp).getD acc
  | Event.scrape => acc

/-- The aggregate of the last cycle that completed, the empty aggregate when
none has. -/
def lastPublished (cfg : Config) (events : List Event) : Dict :=
  events.foldl (publishStep cfg) []

/-- Whether an application record would bump the count of the key s: its stack
field is s, s is truthy, and s passes the include/valid filter. -/
def bumpsKey (inc : Bool) (valid : List String) (s : String) (a : App) : Bool :=
  match App.getStack a with
  | none => false
  | some t => decide (t = s) && !(decide (t = "")) && (inc || valid.contains t)

/-- How many records of a list would bump the count of the key s. -/
def keyCount (inc : Bool) (valid : List String) (s : String) (apps : List App) :
    Nat :=
  apps.countP (bumpsKey inc valid s)

/-- The last value a list of assignments gives to the key s, if any. -/
def lastVal : Dict → String → Option Int
  | [], _ => none
  | p :: rest, s =>
    match lastVal rest s with
    | some v => some v
    | none => if p.1 = s then some p.2 else none

/-- Every snapshot the exporter may publish is well formed: truthy keys and
non-negative counts. -/
def wfDict (d : Dict) : Prop :=
  ∀ p ∈ d, p.1 ≠ "" ∧ 0 ≤ p.2

deriving instance DecidableEq for Except

/-- A configuration with filtering enabled and the two canonical stacks. -/
def scenarioConfig : Config :=
  { include_invalid_stacks := false
    valid_stacks := ["cflinuxfs4", "windows2016"]
    scrape_interval := 300 }

/-- A state holding one published snapshot and one set gauge. -/
def scenarioState : ExporterState :=
  { stack_cache := [("cflinuxfs4", 2)], gauges := [("cflinuxfs4", 2)] }

/-- A state whose gauge registry still holds a label that has vanished from
the snapshot. -/
def staleState : ExporterState :=
  { stack_cache := [("cflinuxfs4", 2)], gauges := [("windows2016", 7)] }

/-- Five consecutive transport failures of the discovery call. -/
def fiveTransportFails : List AttemptOutcome :=
  List.replicate 5 AttemptOutcome.transportErr

/-- A cycle environment in which discovery never succeeds. -/
def failingInput : CycleInput :=
  { attempts := fiveTransportFails, pageFetch := fun _ => Except.error () }

/-- A cycle environment with an immediate discovery success, one page, and a
page fetch returning the two-record scenario page. -/
def succeedingInput : CycleInput :=
  { attempts := [AttemptOutcome.ok { pagination := { total_pages := 1 } }]
    pageFetch := fun _ => Except.ok scenarioPage2 }

/-- A history holding one failed cycle followed by a scrape. -/
def eventsAllFail : List Event :=
  [Event.cycle failingInput, Event.scrape]

/-- A history holding one completed cycle followed by a scrape. -/
def eventsWithPublish : List Event :=
  [Event.cycle succeedingInput, Event.scrape]

/-- The two scenario pages in one order. -/
def permPagesA : List Page := [scenarioPage1, scenarioPage2]

/-- The two scenario pages in the other order. -/
def permPagesB : List Page := [scenarioPage2, scenarioPage1]

theorem lookup_insert (d : Dict) (k : String) (v : Int) (s : String) :
    Dict.lookup (Dict.insert d k v) s = if k = s then some v else Dict.lookup d s := by
  induction d with
  | nil => simp [Dict.insert, Dict.lookup]
  | cons p rest ih =>
    by_cases hpk : p.1 = k
    · by_cases hks : k = s
      · simp [Dict.insert, Dict.lookup, hpk, hks]
      · have hps : ¬ p.1 = s := by rw [hpk]; exact hks
        simp [Dict.insert, Dict.lookup, hpk, hks, hps]
    · by_cases hps : p.1 = s
      · have hks : ¬ k = s := fun h => hpk (hps.trans h.symm)
        simp only [Dict.insert]
        rw [if_neg hpk]
        simp only [Dict.lookup]
        rw [if_pos hps, if_neg hks, if_pos hps]
      · simp [Dict.insert, Dict.lookup, hpk, hps, ih]

theorem mem_keys_insert (d : Dict) (k : String) (v : Int) (s : String) :
    s ∈ Dict.keys (Dict.insert d k v) ↔ s ∈ Dict.keys d ∨ s = k := by
  induction d with
  | nil => simp [Dict.insert, Dict.keys]
  | cons p rest ih =>
    by_cases hpk : p.1 = k
    · simp only [Dict.insert, if_pos hpk, Dict.keys, List.map_cons, List.mem_cons]
      constructor
      · rintro (h | h)
        · exact Or.inr h
        · exact Or.inl (Or.inr h)
      · rintro ((h | h) | h)
        · exact Or.inl (hpk ▸ h)
        · exact Or.inr h
        · exact Or.inl h
    · simp only [Dict.insert, if_neg hpk, Dict.keys, List.map_cons, List.mem_cons] at ih ⊢
      rw [ih]
      tauto

theorem keys_insert_of_mem (d : Dict) (k : String) (v : Int)
    (h : k ∈ Dict.keys d) :
    Dict.keys (Dict.insert d k v) = Dict.keys d := by
  induction d with
  | nil => simp [Dict.keys] at h
  | cons p rest ih =>
    by_cases hpk : p.1 = k
    · simp [Dict.insert, if_pos hpk, Dict.keys, hpk]
    · simp only [Dict.keys, List.map_cons, List.mem_cons] at h
      rcases h with h | h
      · exact absurd h.symm hpk
      · simp only [Dict.insert, if_neg hpk]
        show Dict.keys (p :: Dict.insert rest k v) = Dict.keys (p :: rest)
        simp only [Dict.keys, List.map_cons]
        congr 1
        exact ih h

theorem keys_insert_of_not_mem (d : Dict) (k : String) (v : Int)
    (h : k ∉ Dict.keys d) :
    Dict.keys (Dict.insert d k v) = Dict.keys d ++ [k] := by
  induction d with
  | nil => simp [Dict.insert, Dict.keys]
  | cons p rest ih =>
    simp only [Dict.keys, List.map_cons, List.mem_cons] at h
    push_neg at h
    have hpk : ¬ p.1 = k := fun hc => h.1 hc.symm
    simp only [Dict.insert, if_neg hpk]
    show Dict.keys (p :: Dict.insert rest k v) = Dict.keys (p :: rest) ++ [k]
    simp only [Dict.keys, List.map_cons, List.cons_append]
    congr 1
    exact ih h.2

theorem nodupKeys_insert (d : Dict) (k : String) (v : Int)
    (h : Dict.NodupKeys d) : Dict.NodupKeys (Dict.insert d k v) := by
  by_cases hm : k ∈ Dict.keys d
  · unfold Dict.NodupKeys
    rw [keys_insert_of_mem d k v hm]
    exact h
  · unfold Dict.NodupKeys
    rw [keys_insert_of_not_mem d k v hm]
    simp [List.nodup_append, Dict.NodupKeys] at h ⊢
    exact ⟨h, fun hc => hm hc⟩

theorem lookup_eq_none_iff (d : Dict) (s : String) :
    Dict.lookup d s = none ↔ s ∉ Dict.keys d := by
  induction d with
  | nil => simp [Dict.lookup, Dict.keys]
  | cons p rest ih =>
    simp only [Dict.lookup, Dict.keys, List.map_cons, List.mem_cons]
    by_cases hps : p.1 = s
    · simp [hps]
    · have h1 : ¬ s = p.1 := fun hc => hps hc.symm
      rw [if_neg hps, ih]
      constructor
      · intro h hc
        rcases hc with hc | hc
        · exact h1 hc
        · exact h hc
      · intro h hc
        exact h (Or.inr hc)

theorem lookup_some_mem (d : Dict) (s : String) (v : Int)
    (h : Dict.lookup d s = some v) : (s, v) ∈ d := by
  induction d with
  | nil => simp [Dict.lookup] at h
  | cons p rest ih =>
    simp only [Dict.lookup] at h
    by_cases hps : p.1 = s
    · rw [if_pos hps] at h
      have hv : p.2 = v := by injection h
      have hp : p = (s, v) := Prod.ext hps hv
      rw [← hp]
      exact List.mem_cons_self _ _
    · rw [if_neg hps] at h
      exact List.mem_cons_of_mem _ (ih h)

theorem dict_ext : ∀ (d d' : Dict), Dict.NodupKeys d → Dict.NodupKeys d' →
    Dict.keys d = Dict.keys d' → (∀ s, Dict.lookup d s = Dict.lookup d' s) →
    d = d' := by
  intro d
  induction d with
  | nil =>
    intro d' _ _ hk _
    cases d' with
    | nil => rfl
    | cons q rest' => simp [Dict.keys] at hk
  | cons p rest ih =>
    intro d' h1 h2 hk hl
    cases d' with
    | nil => simp [Dict.keys] at hk
    | cons q rest' =>
      simp only [Dict.keys, List.map_cons, List.cons.injEq] at hk
      obtain ⟨hk1, hk2⟩ := hk
      have hv : some p.2 = some q.2 := by
        have h := hl p.1
        rw [show Dict.lookup (p :: rest) p.1 = some p.2 from by
          simp [Dict.lookup]] at h
        rw [show Dict.lookup (q :: rest') p.1 = some q.2 from by
          simp [Dict.lookup, hk1]] at h
        exact h
      have hpq : p = q := Prod.ext hk1 (by injection hv)
      simp only [Dict.NodupKeys, Dict.keys, List.map_cons, List.nodup_cons] at h1 h2
      have hl' : ∀ s, Dict.lookup rest s = Dict.lookup rest' s := by
        intro s
        by_cases hs : p.1 = s
        · rw [← hs]
          rw [(lookup_eq_none_iff rest p.1).mpr h1.1]
          rw [(lookup_eq_none_iff rest' p.1).mpr (by
            show p.1 ∉ Dict.keys rest'
            rw [hk1]
            exact h2.1)]
        · have h := hl s
          simp only [Dict.lookup] at h
          rw [if_neg hs, if_neg (by rw [← hk1]; exact hs)] at h
          exact h
      rw [hpq, ih rest' h1.2 h2.2 hk2 hl']

theorem setGauges_nil (g : Dict) : setGauges g [] = g := rfl

theorem setGauges_cons (g : Dict) (p : String × Int) (A : Dict) :
    setGauges g (p :: A) = setGauges (Dict.insert g p.1 p.2) A := rfl

theorem lookup_setGauges : ∀ (A g : Dict) (s : String),
    Dict.lookup (setGauges g A) s =
      match lastVal A s with
      | some v => some v
      | none => Dict.lookup g s := by
  intro A
  induction A with
  | nil => intro g s; simp [setGauges_nil, lastVal]
  | cons p A' ih =>
    intro g s
    rw [setGauges_cons, ih]
    cases hA : lastVal A' s with
    | some v => simp [lastVal, hA]
    | none =>
      simp only [lastVal, hA, lookup_insert]
      by_cases hps : p.1 = s
      · simp [hps]
      · simp [hps]

theorem mem_keys_setGauges_cases : ∀ (A g : Dict) (s : String),
    s ∈ Dict.keys (setGauges g A) → s ∈ Dict.keys g ∨ s ∈ Dict.keys A := by
  intro A
  induction A with
  | nil => intro g s h; exact Or.inl h
  | cons p A' ih =>
    intro g s h
    rw [setGauges_cons] at h
    rcases ih (Dict.insert g p.1 p.2) s h with h' | h'
    · rcases (mem_keys_insert g p.1 p.2 s).mp h' with h'' | h''
      · exact Or.inl h''
      · refine Or.inr ?_
        simp only [Dict.keys, List.map_cons, List.mem_cons]
        exact Or.inl h''
    · refine Or.inr ?_
      simp only [Dict.keys, List.map_cons, List.mem_cons]
      exact Or.inr h'

theorem mem_keys_setGauges_left : ∀ (A g : Dict) (s : String),
    s ∈ Dict.keys g → s ∈ Dict.keys (setGauges g A) := by
  intro A
  induction A with
  | nil => intro g s h; exact h
  | cons p A' ih =>
    intro g s h
    rw [setGauges_cons]
    exact ih _ s ((mem_keys_insert g p.1 p.2 s).mpr (Or.inl h))

theorem mem_keys_setGauges_right : ∀ (A g : Dict) (s : String),
    s ∈ Dict.keys A → s ∈ Dict.keys (setGauges g A) := by
  intro A
  induction A with
  | nil => intro g s h; simp [Dict.keys] at h
  | cons p A' ih =>
    intro g s h
    rw [setGauges_cons]
    simp only [Dict.keys, List.map_cons, List.mem_cons] at h
    rcases h with h | h
    · exact mem_keys_setGauges_left A' _ s
        ((mem_keys_insert g p.1 p.2 s).mpr (Or.inr h))
    · exact ih _ s h

theorem keys_setGauges_of_sub : ∀ (A g : Dict),
    (∀ s ∈ Dict.keys A, s ∈ Dict.keys g) →
    Dict.keys (setGauges g A) = Dict.keys g := by
  intro A
  induction A with
  | nil => intro g _; rfl
  | cons p A' ih =>
    intro g h
    have hp : p.1 ∈ Dict.keys g := h p.1 (by simp [Dict.keys])
    rw [setGauges_cons, ih (Dict.insert g p.1 p.2) (fun s hs =>
      (mem_keys_insert g p.1 p.2 s).mpr (Or.inl (h s (by
        simp only [Dict.keys, List.map_cons, List.mem_cons]
        right
        exact hs))))]
    exact keys_insert_of_mem g p.1 p.2 hp

theorem nodupKeys_setGauges : ∀ (A g : Dict),
    Dict.NodupKeys g → Dict.NodupKeys (setGauges g A) := by
  intro A
  induction A with
  | nil => intro g h; exact h
  | cons p A' ih =>
    intro g h
    rw [setGauges_cons]
    exact ih _ (nodupKeys_insert g p.1 p.2 h)

theorem setGauges_idem (g A : Dict) (h : Dict.NodupKeys g) :
    setGauges (setGauges g A) A = setGauges g A := by
  apply dict_ext
  · exact nodupKeys_setGauges A _ (nodupKeys_setGauges A g h)
  · exact nodupKeys_setGauges A g h
  · exact keys_setGauges_of_sub A _ (fun s hs => mem_keys_setGauges_right A g s hs)
  · intro s
    rw [lookup_setGauges, lookup_setGauges]
    cases hA : lastVal A s with
    | some v => rfl
    | none => rfl

theorem lookup_bump_self (d : Dict) (s : String) :
    Dict.lookup (Dict.bump d s) s = some ((Dict.lookup d s).getD 0 + 1) := by
  unfold Dict.bump
  rw [lookup_insert]
  simp

theorem lookup_bump_ne (d : Dict) (t s : String) (h : ¬ t = s) :
    Dict.lookup (Dict.bump d t) s = Dict.lookup d s := by
  unfold Dict.bump
  rw [lookup_insert, if_neg h]

theorem processApp_bumps (inc : Bool) (valid : List String) (d : Dict) (a : App)
    (s : String) (h : bumpsKey inc valid s a = true) :
    processApp inc valid d a = Dict.bump d s := by
  unfold bumpsKey at h
  unfold processApp
  cases hg : App.getStack a with
  | none => rw [hg] at h; simp at h
  | some t =>
    rw [hg] at h
    simp only [Bool.and_eq_true, Bool.not_eq_true', decide_eq_true_eq,
      decide_eq_false_iff_not] at h
    obtain ⟨⟨hts, hne⟩, hguard⟩ := h
    subst hts
    show (if t = "" then d
      else if inc || valid.contains t then Dict.bump d t else d) = Dict.bump d t
    rw [if_neg hne, if_pos hguard]

theorem lookup_processApp_of_not_bumps (inc : Bool) (valid : List String)
    (d : Dict) (a : App) (s : String) (h : bumpsKey inc valid s a = false) :
    Dict.lookup (processApp inc valid d a) s = Dict.lookup d s := by
  unfold bumpsKey at h
  unfold processApp
  cases hg : App.getStack a with
  | none => rfl
  | some t =>
    rw [hg] at h
    show Dict.lookup (if t = "" then d
      else if inc || valid.contains t then Dict.bump d t else d) s = Dict.lookup d s
    by_cases hte : t = ""
    · rw [if_pos hte]
    · rw [if_neg hte]
      by_cases hguard : (inc || valid.contains t) = true
      · rw [if_pos hguard]
        have hts : ¬ t = s := by
          intro hts
          subst hts
          simp [hte] at h
          simp at hguard
          rcases hguard with hg1 | hg1
          · rw [h.1] at hg1
            simp at hg1
          · exact h.2 hg1
        exact lookup_bump_ne d t s hts
      · rw [if_neg hguard]

theorem lookup_foldl_processApp (inc : Bool) (valid : List String) (s : String) :
    ∀ (apps : List App) (d : Dict),
      Dict.lookup (apps.foldl (processApp inc valid) d) s =
        if keyCount inc valid s apps = 0 then Dict.lookup d s
        else some ((Dict.lookup d s).getD 0 + (keyCount inc valid s apps : Int)) := by
  intro apps
  induction apps with
  | nil =>
    intro d
    simp [keyCount]
  | cons a rest ih =>
    intro d
    rw [List.foldl_cons]
    cases hb : bumpsKey inc valid s a with
    | false =>
      rw [ih (processApp inc valid d a)]
      have hcnt : keyCount inc valid s (a :: rest) = keyCount inc valid s rest := by
        simp [keyCount, List.countP_cons, hb]
      rw [hcnt, lookup_processApp_of_not_bumps inc valid d a s hb]
    | true =>
      rw [processApp_bumps inc valid d a s hb, ih (Dict.bump d s)]
      have hcnt : keyCount inc valid s (a :: rest)
          = keyCount inc valid s rest + 1 := by
        simp [keyCount, List.countP_cons, hb]
      rw [hcnt, lookup_bump_self d s]
      by_cases h0 : keyCount inc valid s rest = 0
      · rw [if_pos h0, h0, if_neg (by omega)]
        norm_num
      · rw [if_neg h0, if_neg (by omega)]
        simp only [Option.getD_some]
        congr 1
        push_cast
        ring

theorem aggregate_eq_foldl (inc : Bool) (valid : List String)
    (responses : List Page) :
    aggregate inc valid responses
      = (allApps responses).foldl (processApp inc valid) [] := by
  suffices h : ∀ (rs : List Page) (d : Dict),
      rs.foldl (fun d p => (p.resources.getD []).foldl (processApp inc valid) d) d
        = (allApps rs).foldl (processApp inc valid) d by
    exact h responses []
  intro rs
  induction rs with
  | nil => intro d; simp [allApps]
  | cons p rs' ih =>
    intro d
    rw [List.foldl_cons, ih]
    simp [allApps, List.foldl_append]

theorem discover_cons_eq (a : AttemptOutcome) (l : List AttemptOutcome)
    (r : Nat) (hr : ¬ 5 ≤ r) :
    discover (a :: l) r =
      match a with
      | AttemptOutcome.ok resp => Except.ok resp
      | AttemptOutcome.transportErr => discover l (r + 1)
      | AttemptOutcome.httpErr status tok =>
        if status = 403 ∨ status = 401 then
          match tok with
          | TokenResult.success _ => discover l (r + 1)
          | TokenResult.failure => Except.error CycleError.tokenException
        else discover l (r + 1)
      | AttemptOutcome.otherErr => discover l (r + 1) := by
  rw [discover.eq_def, if_neg hr]
  cases a <;> rfl

theorem discover_step_retriable (a : AttemptOutcome) (l : List AttemptOutcome)
    (r : Nat) (hr : r < 5) (ha : retriable a = true) :
    discover (a :: l) r = discover l (r + 1) := by
  have hr' : ¬ 5 ≤ r := by omega
  cases a with
  | ok resp => simp [retriable] at ha
  | transportErr => exact (discover_cons_eq _ l r hr').trans rfl
  | httpErr status tok =>
    rw [discover_cons_eq _ l r hr']
    by_cases hs : status = 403 ∨ status = 401
    · cases tok with
      | success t =>
        show (if status = 403 ∨ status = 401 then discover l (r + 1)
          else discover l (r + 1)) = discover l (r + 1)
        exact ite_self _
      | failure =>
        rw [retriable, if_pos hs] at ha
        simp at ha
    · cases tok with
      | success t =>
        show (if status = 403 ∨ status = 401 then discover l (r + 1)
          else discover l (r + 1)) = discover l (r + 1)
        exact ite_self _
      | failure =>
        show (if status = 403 ∨ status = 401 then
            Except.error CycleError.tokenException
          else discover l (r + 1)) = discover l (r + 1)
        rw [if_neg hs]
  | otherErr => exact (discover_cons_eq _ l r hr').trans rfl

theorem discover_consume : ∀ (pre l : List AttemptOutcome) (r : Nat),
    (∀ a ∈ pre, retriable a = true) → r + pre.length ≤ 5 →
    discover (pre ++ l) r = discover l (r + pre.length) := by
  intro pre
  induction pre with
  | nil => intro l r _ _; simp
  | cons a pre' ih =>
    intro l r hall hlen
    simp only [List.length_cons] at hlen
    have hr : r < 5 := by omega
    rw [List.cons_append,
      discover_step_retriable a (pre' ++ l) r hr (hall a (by simp)),
      ih l (r + 1) (fun b hb => hall b (by simp [hb])) (by omega)]
    congr 1
    simp only [List.length_cons]
    omega

theorem discover_at_budget (l : List AttemptOutcome) :
    discover l 5 = Except.error CycleError.retryExhausted := by
  rw [discover.eq_def]
  rw [if_pos (show (5 : Nat) ≤ 5 by omega)]

theorem wfDict_nil : wfDict [] := by
  intro p hp
  simp at hp

theorem wfDict_insert (d : Dict) (k : String) (v : Int) (hd : wfDict d)
    (hk : k ≠ "") (hv : 0 ≤ v) : wfDict (Dict.insert d k v) := by
  induction d with
  | nil =>
    intro p hp
    simp [Dict.insert] at hp
    rw [hp]
    exact ⟨hk, hv⟩
  | cons q rest ih =>
    intro p hp
    by_cases hqk : q.1 = k
    · simp only [Dict.insert, if_pos hqk] at hp
      rcases List.mem_cons.mp hp with h | h
      · rw [h]
        exact ⟨hk, hv⟩
      · exact hd p (List.mem_cons_of_mem _ h)
    · simp only [Dict.insert, if_neg hqk] at hp
      rcases List.mem_cons.mp hp with h | h
      · rw [h]
        exact hd q (List.mem_cons_self _ _)
      · exact ih (fun r hr => hd r (List.mem_cons_of_mem _ hr)) p h

theorem lookup_getD_nonneg (d : Dict) (s : String) (hd : wfDict d) :
    0 ≤ (Dict.lookup d s).getD 0 := by
  cases h : Dict.lookup d s with
  | none => simp
  | some v =>
    simp only [Option.getD_some]
    exact (hd (s, v) (lookup_some_mem d s v h)).2

theorem wfDict_processApp (inc : Bool) (valid : List String) (d : Dict)
    (a : App) (hd : wfDict d) : wfDict (processApp inc valid d a) := by
  unfold processApp
  cases App.getStack a with
  | none => exact hd
  | some s =>
    show wfDict (if s = "" then d
      else if inc || valid.contains s then Dict.bump d s else d)
    by_cases hse : s = ""
    · rw [if_pos hse]
      exact hd
    · rw [if_neg hse]
      by_cases hg : (inc || valid.contains s) = true
      · rw [if_pos hg]
        unfold Dict.bump
        apply wfDict_insert d s _ hd hse
        have := lookup_getD_nonneg d s hd
        omega
      · rw [if_neg hg]
        exact hd

theorem wfDict_foldl (inc : Bool) (valid : List String) :
    ∀ (apps : List App) (d : Dict), wfDict d →
      wfDict (apps.foldl (processApp inc valid) d) := by
  intro apps
  induction apps with
  | nil => intro d hd; exact hd
  | cons a rest ih =>
    intro d hd
    rw [List.foldl_cons]
    exact ih _ (wfDict_processApp inc valid d a hd)

theorem wfDict_aggregate (inc : Bool) (valid : List String) (rs : List Page) :
    wfDict (aggregate inc valid rs) := by
  rw [aggregate_eq_foldl]
  exact wfDict_foldl inc valid (allApps rs) [] wfDict_nil

theorem keys_processApp_valid (valid : List String) (d : Dict) (a : App)
    (hd : ∀ k ∈ Dict.keys d, k ∈ valid) :
    ∀ k ∈ Dict.keys (processApp false valid d a), k ∈ valid := by
  intro k hk
  cases hg : App.getStack a with
  | none =>
    simp only [processApp, hg] at hk
    exact hd k hk
  | some s =>
    simp only [processApp, hg] at hk
    by_cases hse : s = ""
    · rw [if_pos hse] at hk
      exact hd k hk
    · rw [if_neg hse] at hk
      by_cases hguard : (false || valid.contains s) = true
      · rw [if_pos hguard] at hk
        rcases (mem_keys_insert d s _ k).mp hk with h | h
        · exact hd k h
        · rw [h]
          simpa using hguard
      · rw [if_neg hguard] at hk
        exact hd k hk

theorem keys_foldl_processApp_valid (valid : List String) :
    ∀ (apps : List App) (d : Dict),
      (∀ k ∈ Dict.keys d, k ∈ valid) →
      ∀ k ∈ Dict.keys (apps.foldl (processApp false valid) d), k ∈ valid := by
  intro apps
  induction apps with
  | nil => intro d hd; exact hd
  | cons a rest ih =>
    intro d hd
    rw [List.foldl_cons]
    exact ih _ (keys_processApp_valid valid d a hd)

theorem keys_aggregate_valid (valid : List String) (rs : List Page) :
    ∀ k ∈ Dict.keys (aggregate false valid rs), k ∈ valid := by
  rw [aggregate_eq_foldl]
  exact keys_foldl_processApp_valid valid (allApps rs) []
    (by intro k hk; simp [Dict.keys] at hk)

theorem cycleResult_wf (cfg : Config) (inp : CycleInput) (d : Dict)
    (h : cycleResult cfg inp = some d) : wfDict d := by
  unfold cycleResult at h
  cases hd : discover inp.attempts 0 with
  | error e =>
    rw [hd] at h
    simp at h
  | ok resp =>
    rw [hd] at h
    simp at h
    cases hf : fetchPages inp.pageFetch resp.pagination.total_pages with
    | error e =>
      rw [hf] at h
      simp at h
    | ok pages =>
      rw [hf] at h
      simp at h
      rw [← h]
      exact wfDict_aggregate _ _ pages

theorem cycleResult_keys_valid (cfg : Config)
    (hinc : cfg.include_invalid_stacks = false) (inp : CycleInput) (d : Dict)
    (h : cycleResult cfg inp = some d) :
    ∀ k ∈ Dict.keys d, k ∈ cfg.valid_stacks := by
  unfold cycleResult at h
  cases hd : discover inp.attempts 0 with
  | error e =>
    rw [hd] at h
    simp at h
  | ok resp =>
    rw [hd] at h
    simp at h
    cases hf : fetchPages inp.pageFetch resp.pagination.total_pages with
    | error e =>
      rw [hf] at h
      simp at h
    | ok pages =>
      rw [hf] at h
      simp at h
      intro k hk
      rw [← h] at hk
      rw [hinc] at hk
      exact keys_aggregate_valid cfg.valid_stacks pages k hk

theorem runCycle_gauges (cfg : Config) (st : ExporterState) (inp : CycleInput) :
    ((runCycle cfg st inp).1).gauges = st.gauges := by
  unfold runCycle
  cases cycleResult cfg inp with
  | none => rfl
  | some d => rfl

theorem runCycle_cache (cfg : Config) (st : ExporterState) (inp : CycleInput) :
    ((runCycle cfg st inp).1).stack_cache
      = (cycleResult cfg inp).getD st.stack_cache := by
  unfold runCycle
  cases cycleResult cfg inp with
  | none => rfl
  | some d => rfl

theorem runCycle_sleep (cfg : Config) (st : ExporterState) (inp : CycleInput) :
    (runCycle cfg st inp).2 = cfg.scrape_interval := by
  unfold runCycle
  cases cycleResult cfg inp with
  | none => rfl
  | some d => rfl

theorem metrics_fst_cache (st : ExporterState) :
    ((metrics st).1).stack_cache = st.stack_cache := rfl

theorem metrics_fst_gauges (st : ExporterState) :
    ((metrics st).1).gauges = setGauges st.gauges st.stack_cache := rfl

theorem metrics_snd (st : ExporterState) :
    (metrics st).2 = generate_latest (setGauges st.gauges st.stack_cache) := rfl

theorem publishStep_cycle (cfg : Config) (acc : Dict) (inp : CycleInput) :
    publishStep cfg acc (Event.cycle inp) = (cycleResult cfg inp).getD acc := rfl

theorem publishStep_scrape (cfg : Config) (acc : Dict) :
    publishStep cfg acc Event.scrape = acc := rfl

theorem step_cache (cfg : Config) (st : ExporterState) (e : Event) :
    (step cfg st e).stack_cache = publishStep cfg st.stack_cache e := by
  cases e with
  | cycle inp => exact runCycle_cache cfg st inp
  | scrape => rfl

theorem runEvents_cache (cfg : Config) : ∀ (events : List Event)
    (st : ExporterState),
    (events.foldl (step cfg) st).stack_cache
      = events.foldl (publishStep cfg) st.stack_cache := by
  intro events
  induction events with
  | nil => intro st; rfl
  | cons e rest ih =>
    intro st
    rw [List.foldl_cons, List.foldl_cons, ih (step cfg st e), step_cache]

theorem runEvents_eq_lastPublished (cfg : Config) (events : List Event) :
    (runEvents cfg events).stack_cache = lastPublished cfg events := by
  unfold runEvents lastPublished
  rw [runEvents_cache]
  rfl

theorem lastPublished_of_all_failed (cfg : Config) : ∀ (events : List Event),
    (∀ inp, Event.cycle inp ∈ events → cycleResult cfg inp = none) →
    lastPublished cfg events = [] := by
  suffices h : ∀ (events : List Event) (acc : Dict),
      (∀ inp, Event.cycle inp ∈ events → cycleResult cfg inp = none) →
      events.foldl (publishStep cfg) acc = acc by
    intro events hf
    exact h events [] hf
  intro events
  induction events with
  | nil => intro acc _; rfl
  | cons e rest ih =>
    intro acc hf
    rw [List.foldl_cons]
    have h1 : publishStep cfg acc e = acc := by
      cases e with
      | cycle inp =>
        rw [publishStep_cycle, hf inp (List.mem_cons_self _ _)]
        rfl
      | scrape => rfl
    rw [h1]
    exact ih acc (fun inp hm => hf inp (List.mem_cons_of_mem _ hm))

theorem run_cache_wf (cfg : Config) : ∀ (events : List Event)
    (st : ExporterState), wfDict st.stack_cache →
    wfDict (events.foldl (step cfg) st).stack_cache := by
  intro events
  induction events with
  | nil => intro st h; exact h
  | cons e rest ih =>
    intro st h
    rw [List.foldl_cons]
    apply ih
    rw [step_cache]
    cases e with
    | cycle inp =>
      rw [publishStep_cycle]
      cases hc : cycleResult cfg inp with
      | none => exact h
      | some d => exact cycleResult_wf cfg inp d hc
    | scrape => exact h

theorem run_keys_valid (cfg : Config)
    (hinc : cfg.include_invalid_stacks = false) : ∀ (events : List Event)
    (st : ExporterState),
    (∀ k ∈ Dict.keys st.stack_cache, k ∈ cfg.valid_stacks) →
    (∀ k ∈ Dict.keys st.gauges, k ∈ cfg.valid_stacks) →
    (∀ k ∈ Dict.keys (events.foldl (step cfg) st).stack_cache,
        k ∈ cfg.valid_stacks)
    ∧ (∀ k ∈ Dict.keys (events.foldl (step cfg) st).gauges,
        k ∈ cfg.valid_stacks) := by
  intro events
  induction events with
  | nil => intro st h1 h2; exact ⟨h1, h2⟩
  | cons e rest ih =>
    intro st h1 h2
    rw [List.foldl_cons]
    apply ih
    · rw [step_cache]
      cases e with
      | cycle inp =>
        rw [publishStep_cycle]
        cases hc : cycleResult cfg inp with
        | none => exact h1
        | some d => exact cycleResult_keys_valid cfg hinc inp d hc
      | scrape => exact h1
    · cases e with
      | cycle inp =>
        show ∀ k ∈ Dict.keys ((runCycle cfg st inp).1).gauges, k ∈ cfg.valid_stacks
        rw [runCycle_gauges]
        exact h2
      | scrape =>
        show ∀ k ∈ Dict.keys ((metrics st).1).gauges, k ∈ cfg.valid_stacks
        rw [metrics_fst_gauges]
        intro k hk
        rcases mem_keys_setGauges_cases st.stack_cache st.gauges k hk with h | h
        · exact h2 k h
        · exact h1 k h

theorem lastVal_eq_none_iff (d : Dict) (s : String) :
    lastVal d s = none ↔ s ∉ Dict.keys d := by
  induction d with
  | nil => simp [lastVal, Dict.keys]
  | cons p rest ih =>
    simp only [lastVal, Dict.keys, List.map_cons, List.mem_cons]
    cases h : lastVal rest s with
    | some v =>
      have hs : s ∈ Dict.keys rest := by
        by_contra hns
        exact absurd (ih.mpr hns) (by simp [h])
      constructor
      · intro hc
        exact absurd hc (by simp)
      · intro hc
        exact absurd (Or.inr hs) hc
    | none =>
      have hns : s ∉ Dict.keys rest := ih.mp h
      by_cases hps : p.1 = s
      · simp [hps]
      · simp only [if_neg hps]
        constructor
        · intro _ hc
          rcases hc with hc | hc
          · exact hps hc.symm
          · exact hns hc
        · intro _
          trivial

/-- Claim C1: the spec states that TLS certificate verification is performed
if and only if SKIP_SSL_VERIFY is false, so certificates are verified under
the default configuration.  The code instead passes the skip flag straight
through as the verify argument of both requests calls (stack.py lines 119 and
133), so under the default (flag false, which is what str2bool of the unset
default yields) the verify argument is false and certificates are NOT
verified — the inversion the code contradicts its own docstring with. -/
theorem tls_verify_arg_inverted_at_default :
    str2bool "False" = false
    ∧ api_call_verify_arg (str2bool "False") = false
    ∧ get_token_verify_arg (str2bool "False") = false := by
  decide

/-- Claim C2: with invalid-stack filtering enabled and valid stacks cflinuxfs4
and windows2016, aggregating the two scenario pages yields exactly the dict
mapping cflinuxfs4 to 3 and windows2016 to 1, and bogus-stack is absent. -/
theorem aggregate_scenario_filtered :
    aggregate false ["cflinuxfs4", "windows2016"] [scenarioPage1, scenarioPage2]
      = [("cflinuxfs4", 3), ("windows2016", 1)]
    ∧ Dict.lookup
        (aggregate false ["cflinuxfs4", "windows2016"]
          [scenarioPage1, scenarioPage2]) "bogus-stack" = none := by
  decide

/-- Claim C3: when the first 5 discovery attempts of a cycle all fail in a way
the retry loop absorbs (transport error, non-auth HTTP error, or 401/403 with
a successful re-login), the cycle aborts: discovery raises after the fifth
attempt, the exporter state — snapshot included — comes back exactly as it
was, and the trailing sleep is the full scrape interval, after which the next
cycle starts from scratch. -/
theorem discovery_exhaustion_aborts_cycle (cfg : Config) (st : ExporterState)
    (pre rest : List AttemptOutcome) (fetch : Nat → Except Unit Page)
    (h1 : ∀ a ∈ pre, retriable a = true) (h2 : pre.length = 5) :
    discover (pre ++ rest) 0 = Except.error CycleError.retryExhausted
    ∧ runCycle cfg st { attempts := pre ++ rest, pageFetch := fetch }
        = (st, cfg.scrape_interval) := by
  have hd : discover (pre ++ rest) 0 = Except.error CycleError.retryExhausted := by
    rw [discover_consume pre rest 0 h1 (by omega), h2, Nat.zero_add]
    exact discover_at_budget rest
  refine ⟨hd, ?_⟩
  have hc : cycleResult cfg { attempts := pre ++ rest, pageFetch := fetch }
      = none := by
    simp [cycleResult, hd]
  unfold runCycle
  rw [hc]

/-- Closed instance of claim C3: five concrete transport failures leave the
concrete state untouched and the sleep is the configured interval. -/
theorem discovery_exhaustion_aborts_cycle_witness :
    discover (fiveTransportFails ++ []) 0
      = Except.error CycleError.retryExhausted
    ∧ runCycle scenarioConfig scenarioState
        { attempts := fiveTransportFails ++ [],
          pageFetch := fun _ => Except.error () }
        = (scenarioState, scenarioConfig.scrape_interval) :=
  discovery_exhaustion_aborts_cycle scenarioConfig scenarioState
    fiveTransportFails [] (fun _ => Except.error ()) (by decide) (by decide)

/-- Claim C4: after any event history, the metrics endpoint returns the
rendered gauges built from the last successfully published aggregate (the
handler is a total function of the state, so no refresh failure can surface
as an HTTP error), and when no cycle has ever completed that aggregate is the
empty one. -/
theorem metrics_serves_last_published (cfg : Config) (events : List Event) :
    (metrics (runEvents cfg events)).2
      = generate_latest
          (setGauges (runEvents cfg events).gauges (lastPublished cfg events))
    ∧ ((∀ inp, Event.cycle inp ∈ events → cycleResult cfg inp = none) →
        lastPublished cfg events = []) := by
  constructor
  · rw [metrics_snd, runEvents_eq_lastPublished]
  · exact lastPublished_of_all_failed cfg events

/-- Closed instance of claim C4: after one failed cycle and a scrape, the
endpoint output is the render of the last published aggregate, which is
empty. -/
theorem metrics_serves_last_published_witness :
    (metrics (runEvents scenarioConfig eventsAllFail)).2
      = generate_latest
          (setGauges (runEvents scenarioConfig eventsAllFail).gauges
            (lastPublished scenarioConfig eventsAllFail))
    ∧ lastPublished scenarioConfig eventsAllFail = [] := by
  refine ⟨(metrics_serves_last_published scenarioConfig eventsAllFail).1,
    (metrics_serves_last_published scenarioConfig eventsAllFail).2 ?_⟩
  intro inp hm
  simp only [eventsAllFail, List.mem_cons, List.not_mem_nil, or_false] at hm
  rcases hm with hm | hm
  · injection hm with hinp
    rw [hinp]
    decide
  · simp at hm

/-- Claim C5: every snapshot the exporter can ever hold — the initial empty
aggregate and everything any publish step installs — is well formed: every
key is a non-empty string and every count is a non-negative integer. -/
theorem snapshot_wellformed (cfg : Config) (events : List Event) :
    wfDict (runEvents cfg events).stack_cache := by
  unfold runEvents
  exact run_cache_wf cfg events initState wfDict_nil

/-- Closed instance of claim C5 at a concrete history. -/
theorem snapshot_wellformed_witness :
    wfDict (runEvents scenarioConfig eventsWithPublish).stack_cache :=
  snapshot_wellformed scenarioConfig eventsWithPublish

/-- Claim C6: with invalid-stack filtering enabled, every key of every
reachable snapshot, every label in the gauge registry, and hence every label
of the dict a scrape renders (the registry right after that scrape) belongs
to the valid-stack set loaded at startup. -/
theorem filtered_labels_in_valid_set (cfg : Config)
    (hinc : cfg.include_invalid_stacks = false) (events : List Event) :
    (∀ k ∈ Dict.keys (runEvents cfg events).stack_cache, k ∈ cfg.valid_stacks)
    ∧ (∀ k ∈ Dict.keys (runEvents cfg events).gauges, k ∈ cfg.valid_stacks)
    ∧ (∀ k ∈ Dict.keys (setGauges (runEvents cfg events).gauges
          (runEvents cfg events).stack_cache), k ∈ cfg.valid_stacks) := by
  have h := run_keys_valid cfg hinc events initState
    (by intro k hk; simp [initState, Dict.keys] at hk)
    (by intro k hk; simp [initState, Dict.keys] at hk)
  refine ⟨h.1, h.2, ?_⟩
  intro k hk
  rcases mem_keys_setGauges_cases (runEvents cfg events).stack_cache
      (runEvents cfg events).gauges k hk with h' | h'
  · exact h.2 k h'
  · exact h.1 k h'

/-- Closed instance of claim C6: the key published by a concrete successful
cycle is in the configured valid-stack set. -/
theorem filtered_labels_in_valid_set_witness :
    "cflinuxfs4" ∈ scenarioConfig.valid_stacks :=
  (filtered_labels_in_valid_set scenarioConfig rfl eventsWithPublish).1
    "cflinuxfs4" (by decide)

/-- Claim C7: aggregation is order independent.  Permuting the pages and the
records inside them permutes the flattened record list, and any two page
lists whose flattened records are permutations of one another aggregate to
the same stack-to-count mapping, because each count is the permutation-
invariant number of qualifying records for that key. -/
theorem aggregation_order_independent (inc : Bool) (valid : List String)
    (rs rs' : List Page) (h : List.Perm (allApps rs) (allApps rs'))
    (s : String) :
    Dict.lookup (aggregate inc valid rs) s
      = Dict.lookup (aggregate inc valid rs') s := by
  rw [aggregate_eq_foldl, aggregate_eq_foldl,
    lookup_foldl_processApp inc valid s (allApps rs) [],
    lookup_foldl_processApp inc valid s (allApps rs') []]
  rw [show keyCount inc valid s (allApps rs)
      = keyCount inc valid s (allApps rs') from by
    unfold keyCount
    exact h.countP_eq _]

/-- Closed instance of claim C7: swapping the two scenario pages leaves the
count of cflinuxfs4 unchanged. -/
theorem aggregation_order_independent_witness :
    Dict.lookup
        (aggregate false ["cflinuxfs4", "windows2016"] permPagesA) "cflinuxfs4"
      = Dict.lookup
        (aggregate false ["cflinuxfs4", "windows2016"] permPagesB)
        "cflinuxfs4" :=
  aggregation_order_independent false ["cflinuxfs4", "windows2016"]
    permPagesA permPagesB (by decide) "cflinuxfs4"

/-- Claim C8: publishing an aggregate and rendering, then publishing the same
aggregate again and rendering, produces identical output.  The second pass
re-sets every label to the value it already carries, which on a genuine gauge
registry (labels are unique, as they are in every state reachable from the
empty registry) leaves the registry unchanged. -/
theorem publish_render_idempotent (st : ExporterState) (A : Dict)
    (h : Dict.NodupKeys st.gauges) :
    (metrics (publish st A)).2
      = (metrics (publish (metrics (publish st A)).1 A)).2 := by
  rw [metrics_snd, metrics_snd]
  show generate_latest (setGauges st.gauges A)
      = generate_latest (setGauges (setGauges st.gauges A) A)
  rw [setGauges_idem st.gauges A h]

/-- Closed instance of claim C8 at a concrete registry and aggregate. -/
theorem publish_render_idempotent_witness :
    (metrics (publish scenarioState [("windows2016", 4)])).2
      = (metrics (publish (metrics (publish scenarioState
          [("windows2016", 4)])).1 [("windows2016", 4)])).2 :=
  publish_render_idempotent scenarioState [("windows2016", 4)]
    (by unfold Dict.NodupKeys; decide)

/-- Claim C9: a render writes only the gauges whose labels occur in the
snapshot copy.  A label absent from the snapshot keeps exactly the value it
had in the registry, and when it had one it is still rendered with that
last-set value. -/
theorem metrics_frame_absent_label (st : ExporterState) (k : String)
    (h : Dict.lookup st.stack_cache k = none) :
    Dict.lookup ((metrics st).1).gauges k = Dict.lookup st.gauges k
    ∧ (∀ v, Dict.lookup st.gauges k = some v →
        renderLine k v ∈ (metrics st).2) := by
  have hfr : Dict.lookup (setGauges st.gauges st.stack_cache) k
      = Dict.lookup st.gauges k := by
    rw [lookup_setGauges,
      (lastVal_eq_none_iff st.stack_cache k).mpr
        ((lookup_eq_none_iff st.stack_cache k).mp h)]
  constructor
  · rw [metrics_fst_gauges]
    exact hfr
  · intro v hv
    rw [metrics_snd]
    have hm : (k, v) ∈ setGauges st.gauges st.stack_cache :=
      lookup_some_mem _ _ _ (hfr.trans hv)
    unfold generate_latest
    exact List.mem_cons_of_mem _ (List.mem_cons_of_mem _
      (List.mem_map_of_mem _ hm))

/-- Closed instance of claim C9: a gauge for a label that vanished from the
snapshot is untouched by a scrape and still renders with its old value. -/
theorem metrics_frame_absent_label_witness :
    Dict.lookup ((metrics staleState).1).gauges "windows2016"
      = Dict.lookup staleState.gauges "windows2016"
    ∧ renderLine "windows2016" 7 ∈ (metrics staleState).2 :=
  ⟨(metrics_frame_absent_label staleState "windows2016" (by decide)).1,
    (metrics_frame_absent_label staleState "windows2016" (by decide)).2 7
      (by decide)⟩

/-- Claim C10: a 401/403 attempt whose re-login itself raises escapes the
retry loop at once.  For any prefix of fewer than 5 absorbed failures and ANY
tail of further attempts, discovery reports the token exception — the result
does not depend on the tail, so the remaining retry budget is never consumed
— and the cycle ends with the whole state unchanged after a full-interval
sleep. -/
theorem token_exception_escapes_retry (cfg : Config) (st : ExporterState)
    (pre rest : List AttemptOutcome) (status : Nat)
    (fetch : Nat → Except Unit Page)
    (h1 : ∀ a ∈ pre, retriable a = true) (h2 : pre.length < 5)
    (h3 : status = 401 ∨ status = 403) :
    discover
        (pre ++ AttemptOutcome.httpErr status TokenResult.failure :: rest) 0
      = Except.error CycleError.tokenException
    ∧ runCycle cfg st
        { attempts :=
            pre ++ AttemptOutcome.httpErr status TokenResult.failure :: rest,
          pageFetch := fetch }
        = (st, cfg.scrape_interval) := by
  have hd : discover
      (pre ++ AttemptOutcome.httpErr status TokenResult.failure :: rest) 0
      = Except.error CycleError.tokenException := by
    rw [discover_consume pre _ 0 h1 (by omega)]
    rw [discover_cons_eq _ rest (0 + pre.length) (by omega)]
    show (if status = 403 ∨ status = 401 then
        Except.error CycleError.tokenException
      else discover rest (0 + pre.length + 1))
      = Except.error CycleError.tokenException
    rw [if_pos h3.symm]
  refine ⟨hd, ?_⟩
  have hc : cycleResult cfg
      { attempts :=
          pre ++ AttemptOutcome.httpErr status TokenResult.failure :: rest,
        pageFetch := fetch } = none := by
    simp [cycleResult, hd]
  unfold runCycle
  rw [hc]

/-- Closed instance of claim C10: two absorbed failures, then a 401 whose
re-login raises, abort the cycle at once with the state unchanged, for a tail
that would otherwise have succeeded. -/
theorem token_exception_escapes_retry_witness :
    discover
        ([AttemptOutcome.transportErr, AttemptOutcome.otherErr]
          ++ AttemptOutcome.httpErr 401 TokenResult.failure
            :: [AttemptOutcome.ok { pagination := { total_pages := 1 } }]) 0
      = Except.error CycleError.tokenException
    ∧ runCycle scenarioConfig scenarioState
        { attempts :=
            [AttemptOutcome.transportErr, AttemptOutcome.otherErr]
              ++ AttemptOutcome.httpErr 401 TokenResult.failure
                :: [AttemptOutcome.ok { pagination := { total_pages := 1 } }],
          pageFetch := fun _ => Except.ok scenarioPage2 }
        = (scenarioState, scenarioConfig.scrape_interval) :=
  token_exception_escapes_retry scenarioConfig scenarioState
    [AttemptOutcome.transportErr, AttemptOutcome.otherErr]
    [AttemptOutcome.ok { pagination := { total_pages := 1 } }] 401
    (fun _ => Except.ok scenarioPage2) (by decide) (by decide) (by decide)
